import Mathlib

/-!
Verification of the rcy audio slicer's segment model and segment-processing
pipeline, as a shallow embedding of the Python source
(src/python/audio_processor.py, src/python/export_utils.py).

Sample values are modelled as exact rationals; machine integers as Int/Nat.
Python int() truncation toward zero is modelled by pyInt.
-/

namespace Rcy

/-- Python int() applied to a number: truncation toward zero. -/
def pyInt (q : ℚ) : ℤ := if q < 0 then ⌈q⌉ else ⌊q⌋

/-- Rounding to the nearest integer (the reading of round() used by the spec;
half-integers do not occur at the inputs we examine). -/
def ratRound (q : ℚ) : ℤ := ⌊q + 1/2⌋

/-- An audio segment produced by the pipeline: a mono sample vector, or a
stereo frame vector as produced by np.column_stack (one (left, right) pair
per frame). -/
inductive AudioSegment where
  | mono (samples : List ℚ)
  | stereo (frames : List (ℚ × ℚ))
  deriving Repr, DecidableEq

/-- np shape[0]: number of frames of the segment. -/
def AudioSegment.frameCount : AudioSegment → ℕ
  | .mono samples => samples.length
  | .stereo frames => frames.length

/-- Python slice data[start:end] for indices already validated to satisfy
0 ≤ start ≤ end ≤ len(data). -/
def pySlice (data : List ℚ) (start_sample end_sample : ℤ) : List ℚ :=
  (data.drop start_sample.toNat).take (end_sample - start_sample).toNat

/-- Embedding of extract_segment (audio_processor.py, lines 13-42): validate
the range, then slice; stereo output is the column_stack of the two channel
slices. -/
def extract_segment (data_left data_right : List ℚ)
    (start_sample end_sample : ℤ) (is_stereo : Bool) :
    Except String AudioSegment :=
  if start_sample < 0 ∨ start_sample ≥ (data_left.length : ℤ) ∨
      end_sample > (data_left.length : ℤ) then
    .error "Invalid sample range"
  else if start_sample ≥ end_sample then
    .error "Start sample must be less than end sample"
  else if is_stereo then
    .ok (.stereo ((pySlice data_left start_sample end_sample).zip
      (pySlice data_right start_sample end_sample)))
  else
    .ok (.mono (pySlice data_left start_sample end_sample))

/-- Embedding of apply_playback_tempo (audio_processor.py, lines 44-67):
when enabled with both BPM values present and source_bpm > 0, the sample
data is returned unchanged and the sample rate is int(rate * target/source);
otherwise both are returned unchanged. -/
def apply_playback_tempo (segment : AudioSegment) (original_sample_rate : ℤ)
    (source_bpm target_bpm : Option ℚ) (enabled : Bool) :
    AudioSegment × ℤ :=
  match enabled, target_bpm, source_bpm with
  | true, some t, some s =>
      if s ≤ 0 then (segment, original_sample_rate)
      else (segment, pyInt ((original_sample_rate : ℚ) * (t / s)))
  | _, _, _ => (segment, original_sample_rate)

/-- np.linspace a b n: n points from a to b inclusive (for n ≥ 2 the i-th
point is a + (b-a) * i / (n-1); n = 1 gives [a]; n = 0 gives []). -/
def linspace (a b : ℚ) (n : ℕ) : List ℚ :=
  (List.range n).map
    (fun i : ℕ => a + (b - a) * (i : ℚ) / ((n : ℚ) - 1))

/-- The fade gain vector of apply_tail_fade (audio_processor.py, lines
97-106): cubic 1 - t^3 over linspace 0..1 for the exponential curve, a
straight linspace 1..0 ramp otherwise. -/
def fade_curve_values (curve : String) (n : ℕ) : List ℚ :=
  if curve == "exponential" then (linspace 0 1 n).map (fun t => 1 - t ^ 3)
  else linspace 1 0 n

/-- int((duration_ms / 1000) * sample_rate): the fade length in samples
before clamping (audio_processor.py, line 91). -/
def fade_length_samples (duration_ms : ℚ) (sample_rate : ℤ) : ℤ :=
  pyInt (duration_ms / 1000 * (sample_rate : ℚ))

/-- Multiply the last n samples of a mono vector elementwise by the gains. -/
def fadeTailMono (samples : List ℚ) (gains : List ℚ) (n : ℕ) : List ℚ :=
  samples.take (samples.length - n) ++
    List.zipWith (· * ·) (samples.drop (samples.length - n)) gains

/-- Multiply the last n frames of a stereo vector by the gains, both
channels alike. -/
def fadeTailStereo (frames : List (ℚ × ℚ)) (gains : List ℚ) (n : ℕ) :
    List (ℚ × ℚ) :=
  frames.take (frames.length - n) ++
    List.zipWith (fun p g => (p.1 * g, p.2 * g))
      (frames.drop (frames.length - n)) gains

/-- The fade length after the clamp of audio_processor.py, lines 94-95:
int(duration_ms/1000 * sample_rate), reduced to the frame count when it
exceeds it. -/
def effective_fade_length (segment : AudioSegment) (duration_ms : ℚ)
    (sample_rate : ℤ) : ℤ :=
  if fade_length_samples duration_ms sample_rate
      > (segment.frameCount : ℤ) then
    (segment.frameCount : ℤ)
  else fade_length_samples duration_ms sample_rate

/-- Embedding of apply_tail_fade (audio_processor.py, lines 69-119): no-op
when disabled or duration_ms ≤ 0; otherwise the fade length is
int(duration_ms/1000 * sample_rate) clamped to the frame count, and when
positive the last fade_length frames are scaled by the curve gains. -/
def apply_tail_fade (segment : AudioSegment) (sample_rate : ℤ)
    (is_stereo : Bool) (enabled : Bool) (duration_ms : ℚ) (curve : String) :
    AudioSegment :=
  if ¬enabled ∨ duration_ms ≤ 0 then segment
  else if effective_fade_length segment duration_ms sample_rate > 0 then
    match segment with
    | .mono samples =>
        .mono (fadeTailMono samples
          (fade_curve_values curve
            (effective_fade_length segment duration_ms sample_rate).toNat)
          (effective_fade_length segment duration_ms sample_rate).toNat)
    | .stereo frames =>
        .stereo (fadeTailStereo frames
          (fade_curve_values curve
            (effective_fade_length segment duration_ms sample_rate).toNat)
          (effective_fade_length segment duration_ms sample_rate).toNat)
  else segment

/-- Embedding of reverse_segment (audio_processor.py, lines 121-139):
np.flip on a mono vector, np.flipud (reverse frame order, channels kept in
place) on a stereo vector. -/
def reverse_segment (segment : AudioSegment) (is_stereo : Bool) :
    AudioSegment :=
  match segment with
  | .mono samples => .mono samples.reverse
  | .stereo frames => .stereo frames.reverse

/-- Embedding of process_segment_for_output (audio_processor.py, lines
141-201): extract, optionally reverse, tempo-adjust the sample rate, then
tail-fade.  Note the fade stage receives the original sample_rate, and the
function accepts no for_export / resample_on_export parameters. -/
def process_segment_for_output (data_left data_right : List ℚ)
    (start_sample end_sample : ℤ) (sample_rate : ℤ)
    (is_stereo reverse : Bool) (playback_tempo_enabled : Bool)
    (source_bpm target_bpm : Option ℚ) (tail_fade_enabled : Bool)
    (fade_duration_ms : ℚ) (fade_curve : String) :
    Except String (AudioSegment × ℤ) := do
  let segment ← extract_segment data_left data_right start_sample
    end_sample is_stereo
  let segment := if reverse then reverse_segment segment is_stereo
    else segment
  let (segment, adjusted_sample_rate) := apply_playback_tempo segment
    sample_rate source_bpm target_bpm playback_tempo_enabled
  let segment := apply_tail_fade segment sample_rate is_stereo
    tail_fade_enabled fade_duration_ms fade_curve
  return (segment, adjusted_sample_rate)

/-- Sample-level core of add_segment (audio_processor.py, lines 412-423):
append the new value and re-sort (Python list.sort is a stable ascending
sort, embedded as insertionSort).  No clamping, no duplicate suppression. -/
def add_segment_sample (segments : List ℤ) (new_segment : ℤ) : List ℤ :=
  List.insertionSort (· ≤ ·) (segments ++ [new_segment])

/-- Embedding of WavAudioProcessor.add_segment: the stored value is
int(click_time * sample_rate). -/
def add_segment (segments : List ℤ) (sample_rate : ℤ) (click_time : ℚ) :
    List ℤ :=
  add_segment_sample segments (pyInt (click_time * sample_rate))

/-- min(range(len(l)), key = fun i => |l[i] - v|): the first index of the
list achieving the least absolute distance to v, together with that
distance (none for the empty list). -/
def closestIdxAux (v : ℤ) : List ℤ → Option (ℕ × ℤ)
  | [] => none
  | x :: xs =>
      match closestIdxAux v xs with
      | none => some (0, |x - v|)
      | some (j, d) =>
          if |x - v| ≤ d then some (0, |x - v|) else some (j + 1, d)

/-- Sample-level core of remove_segment (audio_processor.py, lines
393-410): delete the boundary closest to the query value; no-op on the
empty list. -/
def remove_segment_sample (segments : List ℤ) (click_sample : ℤ) :
    List ℤ :=
  match closestIdxAux click_sample segments with
  | none => segments
  | some (j, _) => segments.eraseIdx j

/-- Embedding of WavAudioProcessor.remove_segment: the query value is
int(click_time * sample_rate). -/
def remove_segment (segments : List ℤ) (sample_rate : ℤ)
    (click_time : ℚ) : List ℤ :=
  remove_segment_sample segments (pyInt (click_time * sample_rate))

/-- Embedding of WavAudioProcessor.split_by_measures (audio_processor.py,
lines 353-357): floor-divide the data length into num_measures *
measure_resolution slices and store the multiples of the slice length for
indices 1 .. num_measures * measure_resolution - 1. -/
def split_by_measures (data_length num_measures measure_resolution : ℕ) :
    List ℕ :=
  let samples_per_measure := data_length / num_measures
  let samples_per_slice := samples_per_measure / measure_resolution
  (List.range' 1 (num_measures * measure_resolution - 1)).map
    (· * samples_per_slice)

/-- The scan loop of WavAudioProcessor.get_segment_boundaries
(audio_processor.py, lines 433-442), with prev holding the previously
examined boundary (0 initially): return (prev, s) at the first stored
boundary s strictly greater than the click sample, and (prev, data_length)
when the scan falls off the end. -/
def segmentScanAux (data_length click_sample : ℤ) (prev : ℤ) :
    List ℤ → ℤ × ℤ
  | [] => (prev, data_length)
  | s :: rest =>
      if click_sample < s then (prev, s)
      else segmentScanAux data_length click_sample s rest

/-- Embedding of WavAudioProcessor.get_segment_boundaries: run the scan at
int(click_time * sample_rate) and report both ends in seconds. -/
def get_segment_boundaries (segments : List ℤ) (data_length : ℤ)
    (sample_rate : ℤ) (click_time : ℚ) : ℚ × ℚ :=
  let click_sample := pyInt (click_time * sample_rate)
  let p := segmentScanAux data_length click_sample 0 segments
  ((p.1 : ℚ) / (sample_rate : ℚ), (p.2 : ℚ) / (sample_rate : ℚ))

/-- The playback coordination state: the is_playing flag of
WavAudioProcessor plus the number of device audio streams in flight
(sd.play starts one, sd.stop / natural completion ends it). -/
structure PlayerState where
  is_playing : Bool
  active_streams : ℕ
  deriving Repr, DecidableEq

/-- Embedding of WavAudioProcessor.stop_playback (audio_processor.py,
lines 541-545): when playing, stop the device stream and clear the flag;
idempotent otherwise. -/
def stop_playback (s : PlayerState) : PlayerState :=
  if s.is_playing then { is_playing := false, active_streams := 0 } else s

/-- Embedding of the control flow of WavAudioProcessor.play_segment
(audio_processor.py, lines 444-461): when already playing, stop and report
false (no new stream); otherwise start one stream and report true. -/
def play_segment (s : PlayerState) : PlayerState × Bool :=
  if s.is_playing then (stop_playback s, false)
  else ({ is_playing := true, active_streams := s.active_streams + 1 },
    true)

/-- Natural completion of the playback thread (the finally block of
play_audio, audio_processor.py, lines 521-525): the stream ends and the
flag clears. -/
def complete_playback (s : PlayerState) : PlayerState :=
  { is_playing := false, active_streams := 0 }

/-- One step of the playback session: a play request, a stop request, or a
natural completion signal (possible only while playing). -/
inductive Step : PlayerState → PlayerState → Prop where
  | play (s : PlayerState) : Step s (play_segment s).1
  | stop (s : PlayerState) : Step s (stop_playback s)
  | complete (s : PlayerState) : s.is_playing = true →
      Step s (complete_playback s)

/-- The initial player state set up by WavAudioProcessor.__init__. -/
def initState : PlayerState := { is_playing := false, active_streams := 0 }

/-- States reachable from the initial state by play/stop/complete steps. -/
inductive Reachable : PlayerState → Prop where
  | init : Reachable initState
  | step {s t : PlayerState} : Reachable s → Step s t → Reachable t

/-! ## Shared helper lemmas -/

/-- activeStreams matches the is_playing flag in every reachable state. -/
lemma reachable_streams_eq (s : PlayerState) (hs : Reachable s) :
    s.active_streams = if s.is_playing then 1 else 0 := by
  induction hs with
  | init => rfl
  | step hr hstep ih =>
      rename_i u v
      cases hstep with
      | play =>
          by_cases hp : u.is_playing = true
          · simp [play_segment, stop_playback, hp]
          · simp [hp] at ih
            simp [play_segment, hp, ih]
      | stop =>
          by_cases hp : u.is_playing = true
          · simp [stop_playback, hp]
          · simpa [stop_playback, hp] using ih
      | complete hu => simp [complete_playback]

/-- Python int() of an integer-valued rational is that integer. -/
lemma pyInt_intCast (n : ℤ) : pyInt (n : ℚ) = n := by
  unfold pyInt
  split <;> simp

/-- The tempo stage with tempo enabled, both BPM values present and a
positive source BPM: data unchanged, rate truncated from the ratio. -/
lemma apply_playback_tempo_enabled (segment : AudioSegment) (rate : ℤ)
    (s t : ℚ) (hs : 0 < s) :
    apply_playback_tempo segment rate (some s) (some t) true
      = (segment, pyInt ((rate : ℚ) * (t / s))) := by
  show (if s ≤ 0 then (segment, rate)
    else (segment, pyInt ((rate : ℚ) * (t / s)))) = _
  rw [if_neg (not_le.mpr hs)]

/-- The tempo stage is the identity on both components when disabled. -/
lemma apply_playback_tempo_disabled (segment : AudioSegment) (rate : ℤ)
    (source_bpm target_bpm : Option ℚ) :
    apply_playback_tempo segment rate source_bpm target_bpm false
      = (segment, rate) := by
  cases source_bpm <;> cases target_bpm <;> rfl

/-- The fade stage is the identity when disabled. -/
lemma apply_tail_fade_disabled (segment : AudioSegment) (rate : ℤ)
    (is_stereo : Bool) (duration_ms : ℚ) (curve : String) :
    apply_tail_fade segment rate is_stereo false duration_ms curve
      = segment := by
  simp [apply_tail_fade]

/-- A valid Python slice has end - start elements. -/
lemma length_pySlice (data : List ℚ) (start_sample end_sample : ℤ)
    (h0 : 0 ≤ start_sample)
    (he : end_sample ≤ (data.length : ℤ)) :
    (pySlice data start_sample end_sample).length
      = (end_sample - start_sample).toNat := by
  simp only [pySlice, List.length_take, List.length_drop]
  omega

/-- On a valid range, extraction returns the channel slice (the zipped
pair of slices when stereo). -/
lemma extract_segment_ok (data_left data_right : List ℚ)
    (start_sample end_sample : ℤ) (is_stereo : Bool)
    (h0 : 0 ≤ start_sample) (hse : start_sample < end_sample)
    (he : end_sample ≤ (data_left.length : ℤ)) :
    extract_segment data_left data_right start_sample end_sample is_stereo
      = .ok (if is_stereo then
          .stereo ((pySlice data_left start_sample end_sample).zip
            (pySlice data_right start_sample end_sample))
        else .mono (pySlice data_left start_sample end_sample)) := by
  unfold extract_segment
  rw [if_neg (by omega), if_neg (by omega)]
  cases is_stereo <;> simp

/-! ## C2: live tempo stage output sample rate -/

/-- C2 (counterexample): at sampleRate 44100, sourceBpm 240, targetBpm 121,
the tempo stage returns 22233 (int() truncation of 22233.75), while the
claimed round(sampleRate * ratio) is 22234. -/
theorem C2_counterexample :
    apply_playback_tempo (.mono [1]) 44100 (some 240) (some 121) true
      = (.mono [1], 22233) ∧
    ratRound ((44100 : ℚ) * (121 / 240)) = 22234 ∧
    (22233 : ℤ) ≠ 22234 := by
  refine ⟨?_, ?_, by decide⟩
  · show (if (240 : ℚ) ≤ 0 then ((AudioSegment.mono [1] : AudioSegment), (44100 : ℤ))
      else (AudioSegment.mono [1], pyInt ((44100 : ℚ) * (121 / 240)))) = _
    rw [if_neg (by norm_num)]
    norm_num [pyInt]
  · norm_num [ratRound]

/-- C2 (amended): with tempo enabled, both BPM values set and
sourceBpm > 0, the tempo stage leaves the sample data unchanged and
reports output rate int(sampleRate * targetBpm / sourceBpm), i.e. the
ratio-scaled rate truncated toward zero (not rounded to nearest). -/
theorem C2_tempo_adjusted_rate (segment : AudioSegment)
    (sample_rate : ℤ) (source_bpm target_bpm : ℚ)
    (hs : 0 < source_bpm) :
    apply_playback_tempo segment sample_rate (some source_bpm)
      (some target_bpm) true
      = (segment, pyInt ((sample_rate : ℚ) * (target_bpm / source_bpm))) :=
  apply_playback_tempo_enabled segment sample_rate source_bpm target_bpm hs

/-- C2 (witness): the spec scenario sampleRate 44100, sourceBpm 240,
targetBpm 120 yields adjusted rate 22050 with the data untouched. -/
theorem C2_tempo_adjusted_rate_witness :
    apply_playback_tempo (.mono [1, 2]) 44100 (some 240) (some 120) true
      = (.mono [1, 2], 22050) := by
  rw [C2_tempo_adjusted_rate (.mono [1, 2]) 44100 240 120 (by norm_num)]
  norm_num [pyInt]

/-! ## C1: export pipeline sample rate -/

/-- C1 (code bug evidence): process_segment_for_output accepts no
for_export / resample_on_export parameters; evaluated at the export
pipeline's settings (forward, tempo enabled, source 240 → target 120 BPM,
source rate 44100) it returns the samples unchanged with the
tempo-adjusted rate 22050, not data resampled to the source rate 44100.
The written segment file would therefore carry a nonstandard rate. -/
theorem C1_export_returns_adjusted_rate :
    process_segment_for_output [1, 2, 3, 4] [1, 2, 3, 4] 0 4 44100
      false false true (some 240) (some 120) false 10 "exponential"
      = .ok (.mono [1, 2, 3, 4], 22050) ∧
    (22050 : ℤ) ≠ 44100 := by
  refine ⟨?_, by decide⟩
  norm_num [process_segment_for_output, extract_segment, pySlice,
    apply_playback_tempo, apply_tail_fade, pyInt]

/-! ## C5: toggle semantics and at most one playback stream -/

/-- C5: a play request while playing stops playback (returns the stopped
result false, transitions to the stopped state with no stream), and in
every reachable state of the play/stop/complete step relation at most one
device stream is in flight. -/
theorem C5_single_playback :
    (∀ s : PlayerState, s.is_playing = true →
      (play_segment s).2 = false ∧
      (play_segment s).1 = stop_playback s ∧
      (play_segment s).1.is_playing = false ∧
      (play_segment s).1.active_streams = 0) ∧
    (∀ s : PlayerState, Reachable s → s.active_streams ≤ 1) := by
  constructor
  · intro s hp
    refine ⟨?_, ?_, ?_, ?_⟩ <;> simp [play_segment, stop_playback, hp]
  · intro s hs
    rw [reachable_streams_eq s hs]
    split <;> omega

/-- C5 (witness): after one play from the initial state the session is
playing with one stream; a second play call reports false, stops, and the
reachable-state stream bound holds there. -/
theorem C5_single_playback_witness :
    ((play_segment ⟨true, 1⟩).2 = false ∧
      (play_segment ⟨true, 1⟩).1 = stop_playback ⟨true, 1⟩ ∧
      (play_segment ⟨true, 1⟩).1.is_playing = false ∧
      (play_segment ⟨true, 1⟩).1.active_streams = 0) ∧
    (play_segment initState).1.active_streams ≤ 1 :=
  ⟨C5_single_playback.1 ⟨true, 1⟩ rfl,
   C5_single_playback.2 (play_segment initState).1
     (Reachable.step Reachable.init (Step.play initState))⟩

/-! ## C7: extraction range errors and pure-extraction identity -/

/-- C7: extraction fails exactly when start < 0, end > len(left) or
start ≥ end, and on a valid range with reverse, tempo and fade all
disabled, the pipeline returns exactly the slice (zipped channel pair
when stereo) at the original sample rate, with end - start samples per
channel. -/
theorem C7_extract_error_iff_and_identity :
    (∀ (data_left data_right : List ℚ) (start_sample end_sample : ℤ)
      (is_stereo : Bool),
      (∃ msg, extract_segment data_left data_right start_sample end_sample
        is_stereo = .error msg) ↔
      (start_sample < 0 ∨ end_sample > (data_left.length : ℤ) ∨
        start_sample ≥ end_sample)) ∧
    (∀ (data_left data_right : List ℚ)
      (start_sample end_sample sample_rate : ℤ) (is_stereo : Bool)
      (source_bpm target_bpm : Option ℚ) (fade_duration_ms : ℚ)
      (fade_curve : String),
      0 ≤ start_sample → start_sample < end_sample →
      end_sample ≤ (data_left.length : ℤ) →
      data_right.length = data_left.length →
      process_segment_for_output data_left data_right start_sample
          end_sample sample_rate is_stereo false false source_bpm
          target_bpm false fade_duration_ms fade_curve
        = .ok ((if is_stereo then
            .stereo ((pySlice data_left start_sample end_sample).zip
              (pySlice data_right start_sample end_sample))
          else .mono (pySlice data_left start_sample end_sample)),
          sample_rate) ∧
      (pySlice data_left start_sample end_sample).length
        = (end_sample - start_sample).toNat ∧
      (pySlice data_right start_sample end_sample).length
        = (end_sample - start_sample).toNat) := by
  constructor
  · intro data_left data_right start_sample end_sample is_stereo
    unfold extract_segment
    split_ifs with h1 h2 h3 <;> simp <;> omega
  · intro data_left data_right start_sample end_sample sample_rate
      is_stereo source_bpm target_bpm fade_duration_ms fade_curve
      h0 hse he hlen
    refine ⟨?_, length_pySlice _ _ _ h0 he,
      length_pySlice _ _ _ h0 (by omega)⟩
    unfold process_segment_for_output
    rw [extract_segment_ok data_left data_right start_sample end_sample
      is_stereo h0 hse he]
    cases is_stereo <;>
      simp [Except.bind, apply_playback_tempo_disabled,
        apply_tail_fade_disabled]

/-- C7 (witness): slicing [5,6,7] over [1,3) with everything disabled
returns [6,7] at the source rate, and the range [0,5) is rejected. -/
theorem C7_extract_witness :
    process_segment_for_output [5, 6, 7] [5, 6, 7] 1 3 48000 false false
      false none none false 10 "linear" = .ok (.mono [6, 7], 48000) ∧
    (∃ msg, extract_segment [5, 6, 7] [5, 6, 7] 0 5 false
      = .error msg) := by
  constructor
  · have h := (C7_extract_error_iff_and_identity.2 [5, 6, 7] [5, 6, 7]
      1 3 48000 false none none 10 "linear" (by norm_num) (by norm_num)
      (by norm_num) (by norm_num)).1
    rw [h]
    norm_num [pySlice]
  · exact (C7_extract_error_iff_and_identity.1 [5, 6, 7] [5, 6, 7]
      0 5 false).mpr (by norm_num)

/-! ## C3: adding a boundary -/

/-- C3 (counterexample): the code neither clamps nor suppresses
duplicates: adding at a position whose sample value 100 is already a
boundary yields [100, 100], which has a duplicate, so the stated
invariant preservation fails. -/
theorem C3_counterexample :
    add_segment [100] 10 10 = [100, 100] ∧
    ¬ List.Pairwise (· < ·) (add_segment [100] 10 10) := by
  have hv : add_segment [100] 10 10 = add_segment_sample [100] 100 := by
    unfold add_segment
    norm_num [pyInt]
  rw [hv]
  exact ⟨by decide, by decide⟩

/-- C3 (amended): add appends int(clickTime * sampleRate) and re-sorts
(no clamping, no duplicate suppression); provided the added value is not
already present and lies in (0, totalSamples), and the list satisfied the
boundary invariant, the result is a permutation of the value consed onto
the old list and satisfies the invariant again. -/
theorem C3_add_keeps_invariant (segments : List ℤ)
    (total sample_rate : ℤ) (click_time : ℚ)
    (hsort : List.Pairwise (· < ·) segments)
    (hrange : ∀ x ∈ segments, 0 < x ∧ x < total)
    (hnew : pyInt (click_time * sample_rate) ∉ segments)
    (hlo : 0 < pyInt (click_time * sample_rate))
    (hhi : pyInt (click_time * sample_rate) < total) :
    (add_segment segments sample_rate click_time).Perm
      (pyInt (click_time * sample_rate) :: segments) ∧
    List.Pairwise (· < ·) (add_segment segments sample_rate click_time) ∧
    ∀ x ∈ add_segment segments sample_rate click_time,
      0 < x ∧ x < total := by
  have hperm : (add_segment segments sample_rate click_time).Perm
      (pyInt (click_time * sample_rate) :: segments) :=
    (List.perm_insertionSort _ _).trans
      (List.perm_append_singleton _ segments)
  have hsorted : List.Sorted (· ≤ ·)
      (add_segment segments sample_rate click_time) :=
    List.sorted_insertionSort _ _
  have hnd : (add_segment segments sample_rate click_time).Nodup :=
    hperm.nodup_iff.mpr (List.nodup_cons.mpr
      ⟨hnew, hsort.imp (fun h => ne_of_lt h)⟩)
  refine ⟨hperm, ?_, ?_⟩
  · exact (List.Pairwise.and hsorted hnd).imp
      (fun h => lt_of_le_of_ne h.1 h.2)
  · intro x hx
    rcases List.mem_cons.mp (hperm.mem_iff.mp hx) with hx2 | hx2
    · exact hx2 ▸ ⟨hlo, hhi⟩
    · exact hrange x hx2

/-- C3 (witness): adding a fresh in-range boundary 200 to [100, 300]
keeps the invariant. -/
theorem C3_add_keeps_invariant_witness :
    (add_segment [100, 300] 10 20).Perm
      (pyInt ((20 : ℚ) * ((10 : ℤ) : ℚ)) :: [100, 300]) ∧
    List.Pairwise (· < ·) (add_segment [100, 300] 10 20) ∧
    ∀ x ∈ add_segment [100, 300] 10 20, 0 < x ∧ x < 400 :=
  C3_add_keeps_invariant [100, 300] 400 10 20 (by decide)
    (by decide) (by norm_num [pyInt]) (by norm_num [pyInt])
    (by norm_num [pyInt])

/-! ## C8: add/remove round-trip -/

/-- If no element of the list equals v, every best distance the closest
scan reports is positive. -/
lemma closestIdxAux_pos (v : ℤ) :
    ∀ (l : List ℤ), (∀ x ∈ l, x ≠ v) →
      ∀ j d, closestIdxAux v l = some (j, d) → 0 < d := by
  intro l
  induction l with
  | nil => intro h j d heq; simp [closestIdxAux] at heq
  | cons x xs ih =>
      intro h j d heq
      have hx : 0 < |x - v| :=
        abs_pos.mpr (sub_ne_zero.mpr (h x (List.mem_cons_self x xs)))
      unfold closestIdxAux at heq
      cases hrec : closestIdxAux v xs with
      | none =>
          rw [hrec] at heq
          simp at heq
          omega
      | some p =>
          obtain ⟨j0, d0⟩ := p
          have hd0 : 0 < d0 :=
            ih (fun y hy => h y (List.mem_cons_of_mem x hy)) j0 d0 hrec
          rw [hrec] at heq
          by_cases hle : |x - v| ≤ d0
          · simp [hle] at heq
            omega
          · simp [hle] at heq
            omega

/-- The closest scan on l₁ ++ v :: l₂, where no element of l₁ or l₂
equals v, reports the position of v with distance 0 (ties can not arise
because every other distance is positive). -/
lemma closestIdxAux_finds (v : ℤ) :
    ∀ (l₁ l₂ : List ℤ), (∀ x ∈ l₁, x ≠ v) → (∀ x ∈ l₂, x ≠ v) →
      closestIdxAux v (l₁ ++ v :: l₂) = some (l₁.length, 0) := by
  intro l₁
  induction l₁ with
  | nil =>
      intro l₂ h₁ h₂
      show closestIdxAux v (v :: l₂) = some (0, 0)
      unfold closestIdxAux
      cases hrec : closestIdxAux v l₂ with
      | none => simp
      | some p =>
          obtain ⟨j0, d0⟩ := p
          have hd0 : 0 < d0 := closestIdxAux_pos v l₂ h₂ j0 d0 hrec
          have hcond : |v - v| ≤ d0 := by simp; omega
          simp [hcond]
          omega
  | cons x l₁ ih =>
      intro l₂ h₁ h₂
      have hx : 0 < |x - v| :=
        abs_pos.mpr (sub_ne_zero.mpr (h₁ x (List.mem_cons_self x l₁)))
      show closestIdxAux v (x :: (l₁ ++ v :: l₂)) = _
      unfold closestIdxAux
      rw [ih l₂ (fun y hy => h₁ y (List.mem_cons_of_mem x hy)) h₂]
      have hcond : ¬ |x - v| ≤ (0 : ℤ) := by omega
      simp [hcond]

/-- Deleting the element at the position of the distinguished middle
element of l₁ ++ a :: l₂ yields l₁ ++ l₂. -/
lemma eraseIdx_append_cons {α : Type} :
    ∀ (l₁ : List α) (a : α) (l₂ : List α),
      (l₁ ++ a :: l₂).eraseIdx l₁.length = l₁ ++ l₂ := by
  intro l₁
  induction l₁ with
  | nil => intro a l₂; rfl
  | cons x l₁ ih => intro a l₂; simp [List.eraseIdx, ih]

/-- Sample-level round trip: appending a fresh value, stable-sorting, and
then removing the boundary closest to the same value restores the sorted
boundary list. -/
lemma remove_add_sample (segments : List ℤ) (v : ℤ)
    (hsorted : List.Sorted (· ≤ ·) segments) (hnew : v ∉ segments) :
    remove_segment_sample (add_segment_sample segments v) v = segments := by
  have hins : add_segment_sample segments v
      = List.orderedInsert (· ≤ ·) v segments :=
    List.eq_of_perm_of_sorted
      ((List.perm_insertionSort _ _).trans
        ((List.perm_append_singleton _ _).trans
          (List.perm_orderedInsert _ _ _).symm))
      (List.sorted_insertionSort _ _)
      (hsorted.orderedInsert v segments)
  have hdecomp : List.orderedInsert (· ≤ ·) v segments
      = segments.takeWhile (fun b => decide ¬ v ≤ b) ++ v ::
        segments.dropWhile (fun b => decide ¬ v ≤ b) :=
    List.orderedInsert_eq_take_drop _ v segments
  have h₁ : ∀ x ∈ segments.takeWhile (fun b => decide ¬ v ≤ b), x ≠ v := by
    intro x hx
    have := List.mem_takeWhile_imp hx
    simp at this
    omega
  have h₂ : ∀ x ∈ segments.dropWhile (fun b => decide ¬ v ≤ b), x ≠ v := by
    intro x hx heq
    exact hnew (heq ▸ (List.dropWhile_sublist _).subset hx)
  unfold remove_segment_sample
  rw [hins, hdecomp, closestIdxAux_finds v _ _ h₁ h₂]
  exact (eraseIdx_append_cons _ v _).trans
    (List.takeWhile_append_dropWhile _ _)

/-- C8: for every sorted boundary list not already containing the sample
value of the click position, add followed by remove at the same position
restores the boundary list exactly. -/
theorem C8_add_remove_roundtrip (segments : List ℤ) (sample_rate : ℤ)
    (click_time : ℚ)
    (hsorted : List.Sorted (· ≤ ·) segments)
    (hnew : pyInt (click_time * sample_rate) ∉ segments) :
    remove_segment (add_segment segments sample_rate click_time)
      sample_rate click_time = segments :=
  remove_add_sample segments _ hsorted hnew

/-- C8 (witness): adding at sample 20 to [10, 30] and removing at the
same click restores [10, 30]. -/
theorem C8_add_remove_roundtrip_witness :
    remove_segment (add_segment [10, 30] 10 2) 10 2 = [10, 30] :=
  C8_add_remove_roundtrip [10, 30] 10 2 (by decide)
    (by norm_num [pyInt])

/-! ## C6: split into equal parts -/

/-- The lengths of the segments induced by interior cut points together
with the implicit endpoints 0 and totalSamples. -/
def segment_lengths (cuts : List ℤ) (total : ℤ) : List ℤ :=
  List.zipWith (fun a b => b - a) (0 :: cuts) (cuts ++ [total])

/-- Telescoping: consecutive differences along prev :: l ++ [total] sum
to total - prev. -/
lemma sum_zipWith_sub :
    ∀ (l : List ℤ) (prev total : ℤ),
      (List.zipWith (fun a b => b - a) (prev :: l) (l ++ [total])).sum
        = total - prev := by
  intro l
  induction l with
  | nil => intro prev total; simp
  | cons x xs ih =>
      intro prev total
      simp only [List.cons_append, List.zipWith_cons_cons, List.sum_cons,
        ih]
      ring

/-- Segment lengths always sum to the total, whatever the cut points. -/
lemma segment_lengths_sum (cuts : List ℤ) (total : ℤ) :
    (segment_lengths cuts total).sum = total := by
  simpa using sum_zipWith_sub cuts 0 total

/-- C6 (counterexample): with totalSamples = 2 > 0 and numParts = 3 > 0
(3 measures at resolution 1), the slice length floors to 0 and the
produced boundaries are [0, 0]: neither strictly increasing nor interior,
refuting the claim for every totalSamples > 0 and numParts > 0. -/
theorem C6_counterexample :
    split_by_measures 2 3 1 = [0, 0] ∧
    ¬ List.Pairwise (· < ·) (split_by_measures 2 3 1) ∧
    ¬ (∀ x ∈ split_by_measures 2 3 1, 0 < x) := by
  decide

/-- C6 (amended): with n := numMeasures * measureResolution parts and
n ≤ totalSamples, the split yields exactly n - 1 cut points at
k * (totalSamples / n) (floor division) for k = 1 .. n - 1, strictly
increasing and interior, and the n segment lengths derived from the cuts
plus the implicit endpoints always sum to exactly totalSamples. -/
theorem C6_split_equally (data_length num_measures measure_resolution : ℕ)
    (hm : 0 < num_measures) (hr : 0 < measure_resolution)
    (hge : num_measures * measure_resolution ≤ data_length) :
    (split_by_measures data_length num_measures measure_resolution).length
      = num_measures * measure_resolution - 1 ∧
    split_by_measures data_length num_measures measure_resolution
      = (List.range' 1 (num_measures * measure_resolution - 1)).map
        (fun k => k * (data_length / (num_measures * measure_resolution))) ∧
    List.Pairwise (· < ·)
      (split_by_measures data_length num_measures measure_resolution) ∧
    (∀ x ∈ split_by_measures data_length num_measures measure_resolution,
      0 < x ∧ x < data_length) ∧
    (segment_lengths
      ((split_by_measures data_length num_measures
        measure_resolution).map (fun x => (x : ℤ)))
      (data_length : ℤ)).sum = (data_length : ℤ) := by
  have hn : 0 < num_measures * measure_resolution :=
    Nat.mul_pos hm hr
  have hco : split_by_measures data_length num_measures measure_resolution
      = (List.range' 1 (num_measures * measure_resolution - 1)).map
        (fun k =>
          k * (data_length / (num_measures * measure_resolution))) := by
    unfold split_by_measures
    show (List.range' 1 (num_measures * measure_resolution - 1)).map
      (fun x => x * (data_length / num_measures / measure_resolution)) = _
    rw [Nat.div_div_eq_div_mul]
  have hsps : 0 < data_length / (num_measures * measure_resolution) :=
    Nat.div_pos hge hn
  have hmul :
      data_length / (num_measures * measure_resolution) *
        (num_measures * measure_resolution) ≤ data_length :=
    Nat.div_mul_le_self _ _
  refine ⟨?_, hco, ?_, ?_, segment_lengths_sum _ _⟩
  · rw [hco]
    simp [List.length_range']
  · rw [hco]
    refine List.Pairwise.map _ ?_ (List.pairwise_lt_range' 1 _ 1)
    intro a b hab
    exact (Nat.mul_lt_mul_right hsps).mpr hab
  · rw [hco]
    intro x hx
    rcases List.mem_map.mp hx with ⟨k, hk, rfl⟩
    rcases List.mem_range'_1.mp hk with ⟨hk1, hk2⟩
    constructor
    · exact Nat.mul_pos hk1 hsps
    · calc k * (data_length / (num_measures * measure_resolution))
          ≤ (num_measures * measure_resolution - 1) *
            (data_length / (num_measures * measure_resolution)) :=
            Nat.mul_le_mul_right _ (by omega)
        _ < (num_measures * measure_resolution) *
            (data_length / (num_measures * measure_resolution)) :=
            (Nat.mul_lt_mul_right hsps).mpr (by omega)
        _ = data_length / (num_measures * measure_resolution) *
            (num_measures * measure_resolution) := Nat.mul_comm _ _
        _ ≤ data_length := hmul

/-- C6 (witness): splitting 4000 samples into 4 parts gives cuts
[1000, 2000, 3000], strictly increasing, interior, lengths summing to
4000. -/
theorem C6_split_equally_witness :
    (split_by_measures 4000 4 1).length = 4 * 1 - 1 ∧
    split_by_measures 4000 4 1
      = (List.range' 1 (4 * 1 - 1)).map (fun k => k * (4000 / (4 * 1))) ∧
    List.Pairwise (· < ·) (split_by_measures 4000 4 1) ∧
    (∀ x ∈ split_by_measures 4000 4 1, 0 < x ∧ x < 4000) ∧
    (segment_lengths ((split_by_measures 4000 4 1).map
      (fun x => (x : ℤ))) (4000 : ℤ)).sum = (4000 : ℤ) :=
  C6_split_equally 4000 4 1 (by decide) (by decide) (by decide)

/-! ## C4: segment lookup -/

/-- The consecutive (start, end) pairs of the boundary-derived partition:
implicit 0, the stored boundaries, implicit totalSamples. -/
def segPairs (segments : List ℤ) (total : ℤ) : List (ℤ × ℤ) :=
  (0 :: segments).zip (segments ++ [total])

/-- The scan's second component is the first stored boundary strictly
greater than the click sample, defaulting to the data length. -/
lemma scan_snd (total p : ℤ) :
    ∀ (segs : List ℤ) (prev : ℤ),
      (segmentScanAux total p prev segs).2
        = (segs.find? (fun s => decide (p < s))).getD total := by
  intro segs
  induction segs with
  | nil => intro prev; rfl
  | cons s rest ih =>
      intro prev
      by_cases h : p < s
      · simp [segmentScanAux, h]
      · simp [segmentScanAux, h, ih]

/-- The scan returns one of the consecutive pairs built from the previous
boundary, the remaining boundaries, and the data length. -/
lemma scan_mem (total p : ℤ) :
    ∀ (segs : List ℤ) (prev : ℤ),
      segmentScanAux total p prev segs
        ∈ (prev :: segs).zip (segs ++ [total]) := by
  intro segs
  induction segs with
  | nil => intro prev; simp [segmentScanAux]
  | cons s rest ih =>
      intro prev
      by_cases h : p < s
      · simp [segmentScanAux, h]
      · have hstep : segmentScanAux total p prev (s :: rest)
            = segmentScanAux total p s rest := by
          simp [segmentScanAux, h]
        rw [hstep]
        exact List.mem_cons_of_mem _ (ih s)

/-- On a strictly increasing boundary chain bounded by the total, the
scan's pair is strictly ordered. -/
lemma scan_lt (total p : ℤ) :
    ∀ (segs : List ℤ) (prev : ℤ),
      List.Pairwise (· < ·) (prev :: segs) → (∀ x ∈ segs, x < total) →
      prev < total →
      (segmentScanAux total p prev segs).1
        < (segmentScanAux total p prev segs).2 := by
  intro segs
  induction segs with
  | nil => intro prev _ _ hpt; simpa [segmentScanAux] using hpt
  | cons s rest ih =>
      intro prev hsort hbound hpt
      rw [List.pairwise_cons] at hsort
      by_cases h : p < s
      · simpa [segmentScanAux, h] using
          hsort.1 s (List.mem_cons_self s rest)
      · have hstep : segmentScanAux total p prev (s :: rest)
            = segmentScanAux total p s rest := by
          simp [segmentScanAux, h]
        rw [hstep]
        exact ih s hsort.2
          (fun x hx => hbound x (List.mem_cons_of_mem s hx))
          (hbound s (List.mem_cons_self s rest))

/-- The scan's first component never exceeds the click sample when the
accumulator starts at or below it. -/
lemma scan_fst_le (total p : ℤ) :
    ∀ (segs : List ℤ) (prev : ℤ), prev ≤ p →
      (segmentScanAux total p prev segs).1 ≤ p := by
  intro segs
  induction segs with
  | nil => intro prev hp; simpa [segmentScanAux] using hp
  | cons s rest ih =>
      intro prev hp
      by_cases h : p < s
      · simpa [segmentScanAux, h] using hp
      · have hstep : segmentScanAux total p prev (s :: rest)
            = segmentScanAux total p s rest := by
          simp [segmentScanAux, h]
        rw [hstep]
        exact ih s (by omega)

/-- The scan's second component is strictly beyond the click sample
whenever the click sample is below the data length. -/
lemma scan_snd_gt (total p : ℤ) (hpt : p < total) :
    ∀ (segs : List ℤ) (prev : ℤ),
      p < (segmentScanAux total p prev segs).2 := by
  intro segs
  induction segs with
  | nil => intro prev; simpa [segmentScanAux] using hpt
  | cons s rest ih =>
      intro prev
      by_cases h : p < s
      · simpa [segmentScanAux, h] using h
      · have hstep : segmentScanAux total p prev (s :: rest)
            = segmentScanAux total p s rest := by
          simp [segmentScanAux, h]
        rw [hstep]
        exact ih s

/-- On a strictly increasing chain, the scan's result is the only
consecutive pair whose half-open interval contains the click sample. -/
lemma scan_unique (total p : ℤ) :
    ∀ (segs : List ℤ) (prev : ℤ),
      List.Pairwise (· < ·) (prev :: segs) →
      ∀ q ∈ (prev :: segs).zip (segs ++ [total]), q.1 ≤ p → p < q.2 →
        q = segmentScanAux total p prev segs := by
  intro segs
  induction segs with
  | nil =>
      intro prev _ q hq hq1 hq2
      simp at hq
      simp [segmentScanAux, hq]
  | cons s rest ih =>
      intro prev hsort q hq hq1 hq2
      rw [List.pairwise_cons] at hsort
      have hzip : (prev :: s :: rest).zip ((s :: rest) ++ [total])
          = (prev, s) :: (s :: rest).zip (rest ++ [total]) := rfl
      rw [hzip] at hq
      rcases List.mem_cons.mp hq with rfl | hq'
      · -- q = (prev, s): the click sample is before s, so the scan stops
        -- at the first boundary.
        simp only at hq1 hq2
        simp [segmentScanAux, hq2]
      · by_cases h : p < s
        · exfalso
          obtain ⟨a, b⟩ := q
          have hmem := (List.of_mem_zip hq').1
          have hs_le : s ≤ a := by
            rcases List.mem_cons.mp hmem with rfl | hmem'
            · omega
            · have := (List.pairwise_cons.mp hsort.2).1 a hmem'
              omega
          simp only at hq1 hq2
          omega
        · have hstep : segmentScanAux total p prev (s :: rest)
              = segmentScanAux total p s rest := by
            simp [segmentScanAux, h]
          rw [hstep]
          exact ih s hsort.2 q hq' hq1 hq2

/-- C4: on a boundary list satisfying the store invariant (strictly
increasing, interior to (0, totalSamples), positive total), the lookup
scan returns (previousBoundaryOrZero, firstBoundaryGreaterOrTotal): the
empty store yields (0, total); the end of the pair is the first boundary
strictly greater than the position (defaulting to the total); the pair is
one of the boundary-derived partition's consecutive pairs with
start < end; and every position in [0, total) belongs to the returned
pair's interval and to no other pair of the partition. -/
theorem C4_segment_containing (segments : List ℤ) (total p : ℤ)
    (hsort : List.Pairwise (· < ·) segments)
    (hrange : ∀ x ∈ segments, 0 < x ∧ x < total)
    (htotal : 0 < total) :
    segmentScanAux total p 0 [] = (0, total) ∧
    (segmentScanAux total p 0 segments).2
      = (segments.find? (fun s => decide (p < s))).getD total ∧
    segmentScanAux total p 0 segments ∈ segPairs segments total ∧
    (segmentScanAux total p 0 segments).1
      < (segmentScanAux total p 0 segments).2 ∧
    (0 ≤ p → p < total →
      (segmentScanAux total p 0 segments).1 ≤ p ∧
      p < (segmentScanAux total p 0 segments).2 ∧
      ∀ q ∈ segPairs segments total, q.1 ≤ p → p < q.2 →
        q = segmentScanAux total p 0 segments) := by
  have hchain : List.Pairwise (· < ·) ((0 : ℤ) :: segments) :=
    List.pairwise_cons.mpr ⟨fun x hx => (hrange x hx).1, hsort⟩
  refine ⟨rfl, scan_snd total p segments 0, scan_mem total p segments 0,
    scan_lt total p segments 0 hchain
      (fun x hx => (hrange x hx).2) htotal, ?_⟩
  intro hp0 hpt
  exact ⟨scan_fst_le total p segments 0 hp0,
    scan_snd_gt total p hpt segments 0,
    scan_unique total p segments 0 hchain⟩

/-- C4 (witness): boundaries [1000, 2500] over 4000 samples at position
1500 give the segment (1000, 2500), the unique containing pair. -/
theorem C4_segment_containing_witness :
    segmentScanAux 4000 1500 0 [] = (0, 4000) ∧
    (segmentScanAux 4000 1500 0 [1000, 2500]).2
      = (([1000, 2500] : List ℤ).find?
          (fun s => decide ((1500 : ℤ) < s))).getD 4000 ∧
    segmentScanAux 4000 1500 0 [1000, 2500]
      ∈ segPairs [1000, 2500] 4000 ∧
    (segmentScanAux 4000 1500 0 [1000, 2500]).1
      < (segmentScanAux 4000 1500 0 [1000, 2500]).2 ∧
    ((0 : ℤ) ≤ 1500 → (1500 : ℤ) < 4000 →
      (segmentScanAux 4000 1500 0 [1000, 2500]).1 ≤ 1500 ∧
      (1500 : ℤ) < (segmentScanAux 4000 1500 0 [1000, 2500]).2 ∧
      ∀ q ∈ segPairs [1000, 2500] 4000, q.1 ≤ 1500 → (1500 : ℤ) < q.2 →
        q = segmentScanAux 4000 1500 0 [1000, 2500]) :=
  C4_segment_containing [1000, 2500] 4000 1500 (by decide) (by decide)
    (by decide)

/-! ## C9: tail fade endpoints -/

/-- linspace produces n points. -/
lemma length_linspace (a b : ℚ) (n : ℕ) : (linspace a b n).length = n := by
  unfold linspace
  rw [List.length_map, List.length_range]

/-- The fade gain vector has as many entries as the fade length. -/
lemma length_fade_curve_values (curve : String) (n : ℕ) :
    (fade_curve_values curve n).length = n := by
  unfold fade_curve_values
  split <;> simp [length_linspace]

/-- For n ≥ 2 the last linspace point is exactly the right endpoint. -/
lemma linspace_getLast (a b : ℚ) (n : ℕ) (hn : 2 ≤ n) :
    (linspace a b n).getLast? = some b := by
  obtain ⟨m, rfl⟩ : ∃ m, n = m + 1 := ⟨n - 1, by omega⟩
  have hm : (m : ℚ) ≠ 0 := Nat.cast_ne_zero.mpr (by omega)
  unfold linspace
  rw [List.range_succ, List.map_append]
  simp only [List.map_cons, List.map_nil, List.getLast?_concat]
  congr 1
  push_cast
  rw [add_sub_cancel_right, mul_div_assoc, div_self hm, mul_one]
  ring

/-- Both fade curves end at gain exactly 0 when the fade spans at least
two samples. -/
lemma fade_curve_values_getLast (curve : String) (n : ℕ) (hn : 2 ≤ n) :
    (fade_curve_values curve n).getLast? = some 0 := by
  unfold fade_curve_values
  split
  · rw [List.getLast?_map, linspace_getLast 0 1 n hn]
    norm_num
  · exact linspace_getLast 1 0 n hn

/-- Multiplying a constant-one vector elementwise truncates the gain
vector. -/
lemma zipWith_one_mul :
    ∀ (n : ℕ) (l : List ℚ),
      List.zipWith (· * ·) (List.replicate n (1 : ℚ)) l = l.take n := by
  intro n
  induction n with
  | zero => intro l; simp
  | succ m ih =>
      intro l
      cases l with
      | nil => simp
      | cons x xs => simp [List.replicate_succ, ih]

/-- Scaling constant-one stereo frames by the gains duplicates the gain
vector into both channels. -/
lemma zipWith_one_pair_mul :
    ∀ (n : ℕ) (l : List ℚ),
      List.zipWith (fun p g => (p.1 * g, p.2 * g))
        (List.replicate n ((1 : ℚ), (1 : ℚ))) l
        = (l.take n).map (fun g => (g, g)) := by
  intro n
  induction n with
  | zero => intro l; simp
  | succ m ih =>
      intro l
      cases l with
      | nil => simp
      | cons x xs =>
          simp only [List.replicate_succ, List.zipWith_cons_cons,
            List.take_succ_cons, List.map_cons, ih, one_mul]

/-- C9 (counterexample): a fade of length exactly 1 sample (125 ms at
8 Hz, exact even in binary floating point) over the constant-1.0 buffer
[1] leaves the last sample at 1.0, not 0.0, for both curves, because a
1-point linspace holds only the left endpoint. -/
theorem C9_counterexample :
    apply_tail_fade (.mono [1]) 8 false true 125 "linear" = .mono [1] ∧
    apply_tail_fade (.mono [1]) 8 false true 125 "exponential"
      = .mono [1] ∧
    fade_length_samples 125 8 = 1 ∧
    ((1 : ℚ) ≠ 0) := by
  have hflen : fade_length_samples 125 8 = 1 := by
    norm_num [fade_length_samples, pyInt]
  have heff : effective_fade_length (.mono [1]) 125 8 = 1 := by
    unfold effective_fade_length
    rw [hflen]
    norm_num [AudioSegment.frameCount]
  refine ⟨?_, ?_, hflen, by norm_num⟩ <;>
  · unfold apply_tail_fade
    rw [if_neg (by norm_num), heff, if_pos (by norm_num)]
    norm_num [fadeTailMono, fade_curve_values, linspace, List.range_succ]

/-- C9 (amended): whenever the effective fade length
min(int(durationMs/1000 * sampleRate), bufferLength) is at least 2, the
tail fade over a constant-1.0 buffer — mono samples or stereo frames
alike — ends at exactly 0.0 (in both channels for stereo) and leaves
every sample before the fade window at exactly 1.0, for both curves; a
fade request longer than the buffer is clamped to the buffer length. -/
theorem C9_fade_endpoints (duration_ms : ℚ) (sample_rate : ℤ) (L : ℕ)
    (curve : String) (hms : 0 < duration_ms)
    (hm : 2 ≤ min (fade_length_samples duration_ms sample_rate).toNat L) :
    (∃ out : List ℚ,
      apply_tail_fade (.mono (List.replicate L 1)) sample_rate false true
        duration_ms curve = .mono out ∧
      out.length = L ∧
      out.getLast? = some 0 ∧
      out.take
        (L - min (fade_length_samples duration_ms sample_rate).toNat L)
        = List.replicate
          (L - min (fade_length_samples duration_ms sample_rate).toNat L)
          (1 : ℚ)) ∧
    (∃ out : List (ℚ × ℚ),
      apply_tail_fade (.stereo (List.replicate L (1, 1))) sample_rate
        true true duration_ms curve = .stereo out ∧
      out.length = L ∧
      out.getLast? = some (0, 0) ∧
      out.take
        (L - min (fade_length_samples duration_ms sample_rate).toNat L)
        = List.replicate
          (L - min (fade_length_samples duration_ms sample_rate).toNat L)
          ((1 : ℚ), (1 : ℚ))) := by
  set m := min (fade_length_samples duration_ms sample_rate).toNat L
    with hmdef
  have hL2 : 2 ≤ L := le_trans hm (min_le_right _ _)
  have hmL : m ≤ L := min_le_right _ _
  have hgain : (fade_curve_values curve m).getLast? = some 0 :=
    fade_curve_values_getLast curve _ (by omega)
  constructor
  · -- mono buffer
    have heff : effective_fade_length
        (.mono (List.replicate L (1 : ℚ))) duration_ms sample_rate
        = (m : ℤ) := by
      unfold effective_fade_length
      simp only [AudioSegment.frameCount, List.length_replicate]
      split <;> omega
    unfold apply_tail_fade
    rw [if_neg (by simp [hms, not_le]), heff]
    rw [if_pos (by omega)]
    simp only [Int.toNat_natCast]
    refine ⟨_, rfl, ?_, ?_, ?_⟩
    · -- length
      simp only [fadeTailMono, List.length_append, List.length_take,
        List.length_replicate, List.length_zipWith, List.length_drop,
        length_fade_curve_values]
      omega
    · -- last sample is 0
      unfold fadeTailMono
      rw [List.getLast?_append]
      rw [List.drop_replicate, List.length_replicate, zipWith_one_mul]
      rw [List.take_of_length_le
        (by rw [length_fade_curve_values]; omega)]
      rw [hgain]
      rfl
    · -- samples before the window are untouched
      unfold fadeTailMono
      rw [List.take_replicate, List.length_replicate]
      have h1 : min (L - m) L = L - m := by omega
      rw [h1]
      rw [List.take_append_of_le_length (by simp)]
      simp
  · -- stereo buffer, both channels scaled by the same gains
    have heff : effective_fade_length
        (.stereo (List.replicate L ((1 : ℚ), (1 : ℚ)))) duration_ms
        sample_rate = (m : ℤ) := by
      unfold effective_fade_length
      simp only [AudioSegment.frameCount, List.length_replicate]
      split <;> omega
    unfold apply_tail_fade
    rw [if_neg (by simp [hms, not_le]), heff]
    rw [if_pos (by omega)]
    simp only [Int.toNat_natCast]
    refine ⟨_, rfl, ?_, ?_, ?_⟩
    · -- length
      simp only [fadeTailStereo, List.length_append, List.length_take,
        List.length_replicate, List.length_zipWith, List.length_drop,
        length_fade_curve_values]
      omega
    · -- last frame is (0, 0)
      unfold fadeTailStereo
      rw [List.getLast?_append]
      rw [List.drop_replicate, List.length_replicate,
        zipWith_one_pair_mul]
      rw [List.take_of_length_le
        (by rw [length_fade_curve_values]; omega)]
      rw [List.getLast?_map, hgain]
      rfl
    · -- frames before the window are untouched
      unfold fadeTailStereo
      rw [List.take_replicate, List.length_replicate]
      have h1 : min (L - m) L = L - m := by omega
      rw [h1]
      rw [List.take_append_of_le_length (by simp)]
      simp

/-- C9 (witness): a 2-sample fade (2 ms at 1000 Hz) on constant buffers
of length 3, mono and stereo, ends at 0.0 and keeps the samples before
the window at 1.0, for both curves. -/
theorem C9_fade_endpoints_witness :
    ((∃ out : List ℚ,
      apply_tail_fade (.mono (List.replicate 3 1)) 1000 false true
        2 "linear" = .mono out ∧
      out.length = 3 ∧
      out.getLast? = some 0 ∧
      out.take (3 - min (fade_length_samples 2 1000).toNat 3)
        = List.replicate (3 - min (fade_length_samples 2 1000).toNat 3)
          (1 : ℚ)) ∧
    (∃ out : List (ℚ × ℚ),
      apply_tail_fade (.stereo (List.replicate 3 (1, 1))) 1000 true true
        2 "linear" = .stereo out ∧
      out.length = 3 ∧
      out.getLast? = some (0, 0) ∧
      out.take (3 - min (fade_length_samples 2 1000).toNat 3)
        = List.replicate (3 - min (fade_length_samples 2 1000).toNat 3)
          ((1 : ℚ), (1 : ℚ)))) ∧
    ((∃ out : List ℚ,
      apply_tail_fade (.mono (List.replicate 3 1)) 1000 false true
        2 "exponential" = .mono out ∧
      out.length = 3 ∧
      out.getLast? = some 0 ∧
      out.take (3 - min (fade_length_samples 2 1000).toNat 3)
        = List.replicate (3 - min (fade_length_samples 2 1000).toNat 3)
          (1 : ℚ)) ∧
    (∃ out : List (ℚ × ℚ),
      apply_tail_fade (.stereo (List.replicate 3 (1, 1))) 1000 true true
        2 "exponential" = .stereo out ∧
      out.length = 3 ∧
      out.getLast? = some (0, 0) ∧
      out.take (3 - min (fade_length_samples 2 1000).toNat 3)
        = List.replicate (3 - min (fade_length_samples 2 1000).toNat 3)
          ((1 : ℚ), (1 : ℚ)))) :=
  ⟨C9_fade_endpoints 2 1000 3 "linear" (by norm_num)
      (by norm_num [fade_length_samples, pyInt]),
   C9_fade_endpoints 2 1000 3 "exponential" (by norm_num)
      (by norm_num [fade_length_samples, pyInt])⟩

/-! ## C10: the fade stage always uses the original sample rate -/

/-- C10: with tempo enabled, the pipeline applies the tail fade at the
original sample_rate (never the adjusted one), so the fade sample count
is int(durationMs/1000 * sourceRate); consequently, when the fade count
and adjusted rate divide exactly, the faded tail lasts
(durationMs/1000) / ratio seconds of real playback time, not
durationMs/1000. -/
theorem C10_fade_uses_source_rate
    (data_left data_right : List ℚ)
    (start_sample end_sample sample_rate : ℤ) (is_stereo reverse : Bool)
    (source_bpm target_bpm : ℚ) (tail_fade_enabled : Bool)
    (fade_duration_ms : ℚ) (fade_curve : String)
    (segment : AudioSegment)
    (hex : extract_segment data_left data_right start_sample end_sample
      is_stereo = .ok segment)
    (hs : 0 < source_bpm) :
    process_segment_for_output data_left data_right start_sample
        end_sample sample_rate is_stereo reverse true (some source_bpm)
        (some target_bpm) tail_fade_enabled fade_duration_ms fade_curve
      = .ok (apply_tail_fade
          (if reverse then reverse_segment segment is_stereo else segment)
          sample_rate is_stereo tail_fade_enabled fade_duration_ms
          fade_curve,
        pyInt ((sample_rate : ℚ) * (target_bpm / source_bpm))) ∧
    (∀ n : ℤ, (n : ℚ) = fade_duration_ms / 1000 * (sample_rate : ℚ) →
      fade_length_samples fade_duration_ms sample_rate = n) ∧
    (∀ n a : ℤ, (n : ℚ) = fade_duration_ms / 1000 * (sample_rate : ℚ) →
      (a : ℚ) = (sample_rate : ℚ) * (target_bpm / source_bpm) →
      (a : ℚ) ≠ 0 →
      (n : ℚ) / (a : ℚ)
        = (fade_duration_ms / 1000) / (target_bpm / source_bpm)) := by
  refine ⟨?_, ?_, ?_⟩
  · have htempo := apply_playback_tempo_enabled
      (if reverse then reverse_segment segment is_stereo else segment)
      sample_rate source_bpm target_bpm hs
    unfold process_segment_for_output
    rw [hex]
    simp [Except.bind, Except.pure, htempo]
  · intro n hn
    unfold fade_length_samples
    rw [← hn, pyInt_intCast]
  · intro n a hn ha hane
    have hrt : (sample_rate : ℚ) * (target_bpm / source_bpm) ≠ 0 :=
      ha ▸ hane
    have hrate : (sample_rate : ℚ) ≠ 0 := left_ne_zero_of_mul hrt
    have hratio : target_bpm / source_bpm ≠ 0 :=
      right_ne_zero_of_mul hrt
    rw [hn, ha, mul_comm (sample_rate : ℚ) (target_bpm / source_bpm),
      mul_div_mul_right _ _ hrate]

/-- C10 (witness): a 10 ms fade at source rate 44100 with ratio 1/2 uses
441 source-rate samples, which last 20 ms at the adjusted 22050 Hz
output rate. -/
theorem C10_fade_uses_source_rate_witness :
    process_segment_for_output [1, 2] [1, 2] 0 2 44100 false false true
        (some 240) (some 120) true 10 "exponential"
      = .ok (apply_tail_fade
          (if false then
            reverse_segment (AudioSegment.mono [1, 2]) false
          else AudioSegment.mono [1, 2]) 44100 false true 10
          "exponential",
        pyInt ((44100 : ℚ) * (120 / 240))) ∧
    (∀ n : ℤ, (n : ℚ) = (10 : ℚ) / 1000 * ((44100 : ℤ) : ℚ) →
      fade_length_samples 10 44100 = n) ∧
    (∀ n a : ℤ, (n : ℚ) = (10 : ℚ) / 1000 * ((44100 : ℤ) : ℚ) →
      (a : ℚ) = ((44100 : ℤ) : ℚ) * ((120 : ℚ) / 240) → (a : ℚ) ≠ 0 →
      (n : ℚ) / (a : ℚ) = ((10 : ℚ) / 1000) / ((120 : ℚ) / 240)) :=
  C10_fade_uses_source_rate [1, 2] [1, 2] 0 2 44100 false false 240 120
    true 10 "exponential" (AudioSegment.mono [1, 2])
    (by norm_num [extract_segment, pySlice]) (by norm_num)

end Rcy
